import Mathlib

/-!
# Verification of the medici double-entry ledger core

Shallow embedding of the medici `Book` class (`src/Book.ts`) and its query
compiler (`helper/parseQuery.ts`), together with proofs of the specification
claims about them.

Modelling conventions:
* JavaScript numbers are modelled as `ℚ` (all values appearing in the claims
  are exactly representable); machine epochs and dates are `Int` milliseconds.
* MongoDB ObjectIds are modelled as `String` with bytewise (lexicographic)
  ordering.
* JavaScript objects used as filter documents are ordered association lists
  `List (String × _)`; property assignment replaces the first binding in
  place or appends a fresh binding at the end, exactly as JS insertion order
  works.
* Fallible operations (invalid date strings, store-rejected negative skip)
  return `Option`/`Except`.
* `Date` parsing of strings is environment dependent, so it is passed in as
  an explicit parameter `pd : String → Option Int`.
-/

deriving instance DecidableEq for Except

namespace Medici

/-- JavaScript `String.prototype.trim()`: strip leading and trailing
whitespace (modelled structurally so that it evaluates by reduction). -/
def jsTrim (s : String) : String :=
  ⟨((s.data.dropWhile Char.isWhitespace).reverse.dropWhile
      Char.isWhitespace).reverse⟩

/-- Helper for `jsSplit`: split a character list on a separator,
accumulating the current segment in reverse. -/
def splitCharAux (sep : Char) : List Char → List Char → List String
  | [], acc => [⟨acc.reverse⟩]
  | c :: cs, acc =>
    if c = sep then ⟨acc.reverse⟩ :: splitCharAux sep cs []
    else splitCharAux sep cs (c :: acc)

/-- JavaScript `String.prototype.split(sep)` for a one-character separator
(modelled structurally so that it evaluates by reduction):
`"".split(":") = [""]`, `"a:b".split(":") = ["a","b"]`. -/
def jsSplit (sep : Char) (s : String) : List String :=
  splitCharAux sep s.data []

/-- JavaScript `Array.prototype.join()` with the default `","` separator
(modelled structurally so that it evaluates by reduction). -/
def jsJoin : List String → String
  | [] => ""
  | [s] => s
  | s :: t :: rest => s ++ "," ++ jsJoin (t :: rest)

/-- A scalar value as it may appear in a query or in transaction metadata. -/
inductive Value where
  | str (s : String)
  | num (q : ℚ)
  | bool (b : Bool)
  | objectId (s : String)
  | date (ms : Int)
  | strList (l : List String)
deriving DecidableEq, Repr

/-- JavaScript truthiness for `Value`. -/
def Value.truthy : Value → Bool
  | .str s => s ≠ ""
  | .num q => q ≠ 0
  | .bool b => b
  | .objectId _ => true
  | .date _ => true
  | .strList _ => true

/-- A user-supplied `start_date` / `end_date`: a native `Date`, a date
string, or a numeric epoch in milliseconds. -/
inductive DateInput where
  | date (ms : Int)
  | str (s : String)
  | num (ms : Int)
deriving DecidableEq, Repr

/-- JavaScript truthiness for `DateInput` (a `Date` object is always truthy,
the empty string and numeric `0` are falsy). -/
def DateInput.truthy : DateInput → Bool
  | .date _ => true
  | .str s => s ≠ ""
  | .num n => n ≠ 0

/-- A value bound to a key of the compiled Mongo filter document. -/
inductive FVal where
  | val (v : Value)
  | range (gte lte : Option Int)
  | gt (id : String)
  | inList (ps : List String)
  | metaObj (m : List (String × Value))
deriving DecidableEq, Repr

/-- JavaScript truthiness of a filter binding (`{}`-like objects are always
truthy; only scalar bindings can be falsy). -/
def FVal.truthy : FVal → Bool
  | .val v => v.truthy
  | _ => true

/-- The compiled filter document: an ordered list of key/value bindings. -/
abbrev Filter := List (String × FVal)

/-- Lookup of a key in an ordered association list (first binding wins,
like JS property access on objects we build without duplicate keys). -/
def lookupKA {α : Type} : List (String × α) → String → Option α
  | [], _ => none
  | p :: ps, k => if p.1 = k then some p.2 else lookupKA ps k

/-- JS property assignment on an ordered association list: replace the
first binding of the key in place, or append a fresh binding at the end. -/
def setKA {α : Type} : List (String × α) → String → α → List (String × α)
  | [], k, v => [(k, v)]
  | p :: ps, k, v => if p.1 = k then (k, v) :: ps else p :: setKA ps k v

theorem lookupKA_setKA_self {α : Type} (l : List (String × α)) (k : String) (v : α) :
    lookupKA (setKA l k v) k = some v := by
  induction l with
  | nil => simp [setKA, lookupKA]
  | cons p ps ih =>
    by_cases h : p.1 = k
    · simp [setKA, lookupKA, h]
    · simp [setKA, lookupKA, h, ih]

theorem lookupKA_setKA_ne {α : Type} (l : List (String × α)) (k k' : String) (v : α)
    (h : k' ≠ k) : lookupKA (setKA l k v) k' = lookupKA l k' := by
  induction l with
  | nil => simp [setKA, lookupKA, Ne.symm h]
  | cons p ps ih =>
    by_cases hp : p.1 = k
    · subst hp
      simp only [setKA, if_pos rfl, lookupKA]
      rw [if_neg (fun hh => h hh.symm), if_neg (fun hh => h hh.symm)]
    · simp only [setKA, if_neg hp, lookupKA]
      by_cases hp' : p.1 = k'
      · simp [hp']
      · simp [hp', ih]

/-- Modelled from the spec: `models/transaction.ts` is not in `src/`.
The closed set of recognized transaction columns, taken from §3 "Transaction"
of the specification (identifier, `book`, `_journal`, `datetime`,
`timestamp`, `account_path`, `accounts`, `debit`, `credit`, `meta`,
`voided`, `void_reason`, `_original_journal`). -/
def isValidTransactionKey (k : String) : Bool :=
  k ∈ ["_id", "book", "_journal", "datetime", "timestamp", "account_path",
       "accounts", "debit", "credit", "meta", "voided", "void_reason",
       "_original_journal"]

/-- Modelled from the spec: `models/transaction.ts` is not in `src/`.
The transaction columns whose semantic type is a document-store identifier
(the unique identifier, the parent journal reference and the
`_original_journal` back-reference, §3 "Transaction"). -/
def isTransactionObjectIdKey (k : String) : Bool :=
  k ∈ ["_id", "_journal", "_original_journal"]

/-- Modelled from the spec: `helper/isPrototypeAttribute.ts` is not in
`src/`. Per §4.1, the guard rejects exactly the intrinsic members
`__proto__`, `constructor` and `prototype`. -/
def isPrototypeAttribute (k : String) : Bool :=
  k ∈ ["__proto__", "constructor", "prototype"]

/-- Modelled from the spec: `helper/parseAccountField.ts` is not in `src/`.
Per §4.1: each account string is split on `:`; if all entries have exactly
`maxAccountPath` segments the filter uses (equality / membership) on the
full `account_path`, otherwise membership in the `accounts` prefix array;
multiple account strings become a disjunction (`$in`). -/
def parseAccountField (account : Option (String ⊕ List String))
    (maxAccountPath : Nat) : Filter :=
  match account with
  | none => []
  | some (.inl s) =>
    if (jsSplit ':' s).length = maxAccountPath then
      [("account_path", .val (.str s))]
    else
      [("accounts", .val (.str s))]
  | some (.inr l) =>
    if l.all (fun s => (jsSplit ':' s).length = maxAccountPath) then
      [("account_path", .inList l)]
    else
      [("accounts", .inList l)]

/-- Modelled from the spec: `helper/parseDateField.ts` is not in `src/`.
Per §4.1, a date field accepts a native timestamp, a parseable date string
or a numeric epoch in milliseconds; invalid date strings fail the caller.
String parsing is environment dependent and passed in as `pd`. -/
def parseDateField (pd : String → Option Int) : DateInput → Option Int
  | .date ms => some ms
  | .num ms => some ms
  | .str s => pd s

/-- A user query as accepted by `parseQuery` (`IParseQuery & IPaginationQuery`):
the recognized fields `account` / `start_date` / `end_date`, the pagination
fields, and the remaining (`...extra`) key/value pairs in object order. -/
structure Query where
  account : Option (String ⊕ List String) := none
  start_date : Option DateInput := none
  end_date : Option DateInput := none
  extra : List (String × Value) := []
  perPage : Option Int := none
  page : Option Int := none
deriving DecidableEq, Repr

/-- Truthiness of an optional date field (`undefined` is falsy). -/
def dTruthy : Option DateInput → Bool
  | none => false
  | some d => d.truthy

/-- Parse one optional date bound exactly as the `if (start_date)` /
`if (end_date)` guards do: a falsy field contributes no bound, a truthy
field must parse (an invalid date string fails the caller). -/
def optParseDate (pd : String → Option Int) : Option DateInput → Option (Option Int)
  | none => some none
  | some d => if d.truthy then (parseDateField pd d).map some else some none

/-- The `start_date`/`end_date` section of `parseQuery`: when at least one
of the two raw values is truthy, a `datetime` binding is written with the
`$gte`/`$lte` bounds of the truthy fields. -/
def dateSection (pd : String → Option Int) (q : Query) (f : Filter) :
    Option Filter :=
  if dTruthy q.start_date || dTruthy q.end_date then
    (optParseDate pd q.start_date).bind (fun g =>
      (optParseDate pd q.end_date).map (fun le =>
        setKA f "datetime" (.range g le)))
  else
    some f

/-- The coercion applied to an extra value before routing: a string value
for an identifier column becomes an ObjectId (`new Types.ObjectId(value)`). -/
def coerceExtra (k : String) (v : Value) : Value :=
  match v with
  | .str s => if isTransactionObjectIdKey k then .objectId s else v
  | _ => v

/-- The `meta.<key> = value` assignment of the extra-key loop
(`if (!filterQuery.meta) filterQuery.meta = {}; filterQuery.meta[key] = v`):
the `meta` object is created when the current `meta` binding is absent or
falsy; an assignment onto a truthy non-object `meta` binding mutates a
primitive/opaque value and leaves the filter unchanged. -/
def metaAssign (acc : Filter) (k : String) (nv : Value) : Filter :=
  match lookupKA acc "meta" with
  | some (.metaObj m) => setKA acc "meta" (.metaObj (setKA m k nv))
  | some (.val v) =>
    if v.truthy then acc else setKA acc "meta" (.metaObj [(k, nv)])
  | some (.range _ _) => acc
  | some (.gt _) => acc
  | some (.inList _) => acc
  | none => setKA acc "meta" (.metaObj [(k, nv)])

/-- One step of the extra-key loop of `parseQuery`: prototype attributes
are skipped; recognized transaction columns are assigned at top level;
anything else is stored under `meta.<key>`. -/
def extraStep (acc : Filter) (kv : String × Value) : Filter :=
  if isPrototypeAttribute kv.1 then acc
  else
    let nv := coerceExtra kv.1 kv.2
    if isValidTransactionKey kv.1 then setKA acc kv.1 (.val nv)
    else metaAssign acc kv.1 nv

/-- The extra-key loop of `parseQuery` over all `...extra` pairs. -/
def applyExtras (l : List (String × Value)) (f : Filter) : Filter :=
  l.foldl extraStep f

/-- The pagination properties of the query object. A `Query` models the JS
object `{ account?, start_date?, end_date?, ...extra, perPage?, page? }`
(pagination properties last in insertion order); when `perPage`/`page` are
present they are ordinary own properties and land in the `...extra` rest
object of `parseQuery`'s destructuring. -/
def pagExtras (q : Query) : List (String × Value) :=
  (match q.perPage with
   | some pp => [("perPage", Value.num pp)]
   | none => []) ++
  (match q.page with
   | some pg => [("page", Value.num pg)]
   | none => [])

/-- All pairs of the `...extra` rest object of `parseQuery`'s destructuring,
in property order: the free-form extras followed by any pagination
properties. -/
def extraFull (q : Query) : List (String × Value) :=
  q.extra ++ pagExtras q

/-- `parseQuery` (`helper/parseQuery.ts`): build the base filter from the
book name and the account field, add the `datetime` range, then route all
`...extra` pairs (including any pagination properties left on the query). -/
def parseQuery (pd : String → Option Int) (bookName : String)
    (maxAccountPath : Nat) (q : Query) : Option Filter :=
  (dateSection pd q (("book", .val (.str bookName)) ::
      parseAccountField q.account maxAccountPath)).map
    (fun f1 => applyExtras (extraFull q) f1)

/-- Lookup of a key nested under the filter's `meta` object. -/
def metaLookup (f : Filter) (k : String) : Option Value :=
  match lookupKA f "meta" with
  | some (.metaObj m) => lookupKA m k
  | _ => none

/-- A transaction document (§3 "Transaction"). ObjectIds are strings. -/
structure Tx where
  txId : String
  book : String
  account_path : String
  accounts : List String
  datetime : Int
  timestamp : Int
  credit : ℚ
  debit : ℚ
  meta : List (String × Value) := []
  journalId : String := ""
  original_journal : Option String := none
  voided : Bool := false
  void_reason : Option String := none
deriving DecidableEq, Repr

/-- Bytewise (lexicographic) order on ObjectIds. -/
def oidLt (a b : String) : Bool := compare a b == Ordering.lt

/-- The scalar value stored under a transaction column, if any. -/
def txGet (t : Tx) : String → Option Value
  | "_id" => some (.objectId t.txId)
  | "book" => some (.str t.book)
  | "account_path" => some (.str t.account_path)
  | "accounts" => some (.strList t.accounts)
  | "datetime" => some (.date t.datetime)
  | "timestamp" => some (.date t.timestamp)
  | "credit" => some (.num t.credit)
  | "debit" => some (.num t.debit)
  | "_journal" => some (.objectId t.journalId)
  | "_original_journal" => t.original_journal.map .objectId
  | "voided" => some (.bool t.voided)
  | "void_reason" => t.void_reason.map .str
  | _ => none

/-- Mongo equality match of a stored field value against a query value
(an array field matches a scalar that is one of its elements). -/
def valMatch : Value → Value → Bool
  | .strList l, .str s => l.contains s
  | w, v => w == v

/-- Whether a transaction satisfies one binding of the compiled filter. -/
def matchPair (t : Tx) : String × FVal → Bool
  | ("meta", .metaObj m) => t.meta == m
  | (_, .metaObj _) => false
  | (k, .val v) =>
    match txGet t k with
    | some w => valMatch w v
    | none => false
  | (k, .range g l) =>
    match txGet t k with
    | some (.date d) =>
      (match g with | some x => decide (x ≤ d) | none => true) &&
      (match l with | some y => decide (d ≤ y) | none => true)
    | _ => false
  | (k, .gt i) =>
    match txGet t k with
    | some (.objectId j) => oidLt i j
    | _ => false
  | (k, .inList ps) =>
    match txGet t k with
    | some (.str s) => ps.contains s
    | some (.strList l) => ps.any (fun p => l.contains p)
    | _ => false

/-- Whether a transaction matches every binding of the compiled filter. -/
def matchesFilter (t : Tx) (f : Filter) : Bool :=
  f.all (matchPair t)

/-- A cached balance snapshot document (§3 "Balance snapshot"). -/
structure Snapshot where
  book : Value
  account : Option String
  meta : Option FVal
  transaction : String
  timestamp : Int
  balance : ℚ
  createdAt : Int
deriving DecidableEq, Repr

/-- The snapshot document written by `snapshotBalance`. -/
structure SnapWrite where
  book : String
  account : Option String
  meta : Option FVal
  transaction : String
  timestamp : Int
  balance : ℚ
  expireInSec : ℚ
deriving DecidableEq, Repr

/-- A journal document (§3 "Journal"), reduced to the fields `Book.void`
reads before delegating to the journal's own void method. -/
structure Journal where
  jId : String
  book : String
  voided : Bool := false
deriving DecidableEq, Repr

/-- A per-`(book, account)` lock document (§3 "Account lock"). -/
structure Lock where
  book : String
  account : String
  updatedAt : Int
  v : Nat
deriving DecidableEq, Repr

/-- The document store visible to the `Book` operations. -/
structure Store where
  txs : List Tx := []
  snapshots : List Snapshot := []
  journals : List Journal := []
deriving DecidableEq, Repr

/-- Modelled from the spec: `models/balance.ts` is not in `src/`.
Per §4.3 step 1: among the snapshots with the same `(book, account, meta)`
key, the best applicable snapshot is the one with the largest transaction
identifier. -/
def getBestSnapshot (snaps : List Snapshot) (kbook : Option FVal)
    (kaccount : Option String) (kmeta : Option FVal) : Option Snapshot :=
  (snaps.filter (fun s =>
      kbook == some (.val s.book) && kaccount == s.account && kmeta == s.meta)).foldl
    (fun best s =>
      match best with
      | none => some s
      | some b => if oidLt b.transaction s.transaction then some s else some b)
    none

/-- A validated book: `precision` and `maxAccountPath` are the validated
non-negative integers, `balanceSnapshotSec` the validated non-negative
number. -/
structure Book where
  name : String
  precision : Nat
  maxAccountPath : Nat
  balanceSnapshotSec : ℚ
deriving DecidableEq, Repr

/-- The distinct caller-dispatchable error kinds raised by the embedded
operations. -/
inductive MediciError where
  | bookConstructor (msg : String)
  | journalNotFound
deriving DecidableEq, Repr

/-- The `Book` constructor: defaults `8` / `3` / `86400`, then the four
validation checks in source order (`name` must be a string with non-empty
trim; `precision` and `maxAccountPath` must be non-negative integers;
`balanceSnapshotSec` must be a non-negative number — the source performs no
integrality check on it). -/
def Book.construct (name : String)
    (precision maxAccountPath balanceSnapshotSec : Option ℚ) :
    Except MediciError Book :=
  let p := precision.getD 8
  let m := maxAccountPath.getD 3
  let s := balanceSnapshotSec.getD (24 * 60 * 60)
  if (jsTrim name).length = 0 then
    .error (.bookConstructor "Invalid value for name provided.")
  else if ¬(p.den = 1 ∧ 0 ≤ p) then
    .error (.bookConstructor "Invalid value for precision provided.")
  else if ¬(m.den = 1 ∧ 0 ≤ m) then
    .error (.bookConstructor "Invalid value for maxAccountPath provided.")
  else if s < 0 then
    .error (.bookConstructor "Invalid value for balanceSnapshotSec provided.")
  else
    .ok ⟨name, p.num.toNat, m.num.toNat, s⟩

/-- The rounding used on the aggregated delta:
`parseFloat(x.toFixed(precision))`, i.e. round to `precision` fractional
decimal digits via a decimal-string round-trip. -/
def roundFix (p : Nat) (x : ℚ) : ℚ :=
  ((round (x * 10 ^ p) : ℤ) : ℚ) / (10 ^ p : ℚ)

/-- The comma-joined canonical account key used for the snapshot lookup:
`query.account ? [].concat(query.account).join() : query.account`. -/
def accountForSnap : Option (String ⊕ List String) → Option String
  | none => none
  | some (.inl s) => some s
  | some (.inr l) => some (jsJoin l)

/-- The snapshot consulted by `Book.balance`: looked up only when
`balanceSnapshotSec` is truthy, keyed on `parsedQuery.book`, the
comma-joined account, and `parsedQuery.meta`. -/
def Book.liveSnap (b : Book) (store : Store) (q : Query) (pq : Filter) :
    Option Snapshot :=
  if b.balanceSnapshotSec ≠ 0 then
    getBestSnapshot store.snapshots (lookupKA pq "book") (accountForSnap q.account)
      (lookupKA pq "meta")
  else
    none

/-- Narrow the live filter by `_id > snapshot.transaction` when a snapshot
was found (`parsedQuery._id = { $gt: balanceSnapshot.transaction }`). -/
def narrowFilter (pq : Filter) : Option Snapshot → Filter
  | some s => setKA pq "_id" (.gt s.transaction)
  | none => pq

/-- `needToDoBalanceSnapshot`: initialized `true`; when a snapshot exists it
is `Date.now() > createdAt.getTime() + balanceSnapshotSec * 1000`. -/
def Book.refreshNeeded (b : Book) (now : Int) : Option Snapshot → Bool
  | none => true
  | some s => decide ((now : ℚ) > (s.createdAt : ℚ) + b.balanceSnapshotSec * 1000)

/-- The transactions seen by the `$match` stage of the delta aggregation. -/
def deltaTxs (store : Store) (f : Filter) : List Tx :=
  store.txs.filter (fun t => matchesFilter t f)

/-- Sum of `credit − debit` over a list of transactions (the `$sum` of
`$subtract` in the `$group` stage). -/
def sumCD (l : List Tx) : ℚ :=
  l.foldl (fun acc t => acc + (t.credit - t.debit)) 0

/-- Last element of a list (`$last` over the pipeline's natural order). -/
def lastOf : List Tx → Option Tx
  | [] => none
  | [t] => some t
  | _ :: t :: ts => lastOf (t :: ts)

/-- The single `$group` row of the delta aggregation (`undefined` when no
transaction matched). -/
structure AggOut where
  balance : ℚ
  count : Nat
  lastTransactionId : String
  lastTimestamp : Int
deriving DecidableEq, Repr

/-- The `$match → $group` aggregation of `Book.balance`. -/
def aggregate (store : Store) (f : Filter) : Option AggOut :=
  match lastOf (deltaTxs store f) with
  | none => none
  | some last =>
    some ⟨sumCD (deltaTxs store f), (deltaTxs store f).length, last.txId,
      last.timestamp⟩

/-- The observable outcome of one `Book.balance` call: the returned
`{ balance, notes }`, the snapshot document written (if any), and the final
(possibly `_id`-narrowed) live filter the aggregation ran on. -/
structure BalanceOut where
  balance : ℚ
  notes : Nat
  written : Option SnapWrite
  finalFilter : Filter
deriving DecidableEq, Repr

/-- The pure core of `Book.balance` (`src/Book.ts:48-118`) once the query
has compiled to `pq`: fetch the best applicable snapshot (when snapshots
are enabled), narrow the live filter by `_id > snapshot.transaction`, run
the delta aggregation, add the snapshot balance and the rounded delta, and
opportunistically write a refreshed snapshot with double TTL when the
snapshot was stale (or absent) and at least one transaction was seen. -/
def Book.balanceCore (b : Book) (store : Store) (now : Int) (q : Query)
    (pq : Filter) : BalanceOut :=
  match aggregate store (narrowFilter pq (b.liveSnap store q pq)) with
  | none =>
    ⟨((b.liveSnap store q pq).map Snapshot.balance).getD 0, 0, none,
      narrowFilter pq (b.liveSnap store q pq)⟩
  | some agg =>
    ⟨((b.liveSnap store q pq).map Snapshot.balance).getD 0
        + roundFix b.precision agg.balance,
      agg.count,
      if b.refreshNeeded now (b.liveSnap store q pq) then
        some ⟨b.name, accountForSnap q.account, lookupKA pq "meta",
          agg.lastTransactionId, agg.lastTimestamp,
          ((b.liveSnap store q pq).map Snapshot.balance).getD 0
            + roundFix b.precision agg.balance,
          b.balanceSnapshotSec * 2⟩
      else none,
      narrowFilter pq (b.liveSnap store q pq)⟩

/-- `Book.balance`: parse the query, then run the balance core. -/
def Book.balance (b : Book) (pd : String → Option Int) (store : Store)
    (now : Int) (q : Query) : Option BalanceOut :=
  (parseQuery pd b.name b.maxAccountPath q).map (b.balanceCore store now q)

/-- Descending `(datetime, timestamp)` comparison used by the ledger sort. -/
def txLe (a b : Tx) : Bool :=
  (b.datetime < a.datetime) ||
  (b.datetime == a.datetime && decide (b.timestamp ≤ a.timestamp))

/-- Insertion into a list sorted by `txLe`. -/
def insertTx (t : Tx) : List Tx → List Tx
  | [] => [t]
  | u :: us => if txLe t u then t :: u :: us else u :: insertTx t us

/-- The ledger enumeration order: sorted by `datetime` descending, then
`timestamp` descending. -/
def ledgerSort : List Tx → List Tx
  | [] => []
  | t :: ts => insertTx t (ledgerSort ts)

/-- The observable outcome of one `Book.ledger` call: the returned
`{ results, total }`, the compiled filter, and the caller's query object as
it is left after the call (the source deletes `perPage`/`page` from it). -/
structure LedgerOut where
  results : List Tx
  total : Nat
  filter : Filter
  queryAfter : Query
deriving DecidableEq, Repr

/-- `skip = (query.page ? query.page - 1 : 0) * query.perPage`, computed
from the query before the pagination fields are deleted. -/
def pageSkip (q : Query) : Int :=
  (if q.page.getD 0 ≠ 0 then q.page.getD 0 - 1 else 0) * q.perPage.getD 0

/-- The paginated tail of `Book.ledger`: the store rejects a negative skip;
otherwise skip/limit are applied to the sorted enumeration, a separate
count of the full filter is taken, and `total = count || results.length`. -/
def ledgerPage (store : Store) (q : Query) (f : Filter) : Option LedgerOut :=
  if pageSkip q < 0 then none
  else
    some ⟨((ledgerSort (deltaTxs store f)).drop (pageSkip q).toNat).take
        (q.perPage.getD 0).natAbs,
      if (deltaTxs store f).length ≠ 0 then (deltaTxs store f).length
      else (((ledgerSort (deltaTxs store f)).drop (pageSkip q).toNat).take
        (q.perPage.getD 0).natAbs).length,
      f, { q with perPage := none, page := none }⟩

/-- `Book.ledger` (`src/Book.ts:120-178`): when `perPage` is truthy compute
the skip, delete both pagination fields from the caller's query, compile
the filter from the mutated query and paginate; otherwise compile the
filter from the untouched query (any pagination leftovers flow into it)
and return the full sorted enumeration with `total = results.length`. -/
def Book.ledger (b : Book) (pd : String → Option Int) (store : Store)
    (q : Query) : Option LedgerOut :=
  if q.perPage.getD 0 ≠ 0 then
    (parseQuery pd b.name b.maxAccountPath
        { q with perPage := none, page := none }).bind (ledgerPage store q)
  else
    (parseQuery pd b.name b.maxAccountPath q).map
      (fun f => ⟨ledgerSort (deltaTxs store f),
        (ledgerSort (deltaTxs store f)).length, f, q⟩)

/-- `Book.void` (`src/Book.ts:180-197`) up to the delegation: fetch the
journal by `{ _id: journal_id, book: this.name }`; throw
`JournalNotFoundError` when nothing matches; otherwise proceed to void the
fetched journal (returned here as the journal the void proceeds on). -/
def Book.voidJournal (b : Book) (store : Store) (journalId : String) :
    Except MediciError Journal :=
  match store.journals.find? (fun j => j.jId == journalId && j.book == b.name) with
  | none => .error .journalNotFound
  | some j => .ok j

/-- First-occurrence deduplication with a seen accumulator:
`Array.from(new Set(accounts))` keeps each distinct element at the position
of its first occurrence. -/
def dedupGo (seen : List String) : List String → List String
  | [] => []
  | a :: as => if a ∈ seen then dedupGo seen as else a :: dedupGo (a :: seen) as

/-- `Array.from(new Set(accounts))`. -/
def dedupFirst (l : List String) : List String := dedupGo [] l

/-- The lock upsert of `writelockAccounts`: update the first document
matching `{ account, book }` (`$set updatedAt`, `$inc __v`), or insert a
fresh one (`$setOnInsert` of the key, `__v` created at 1). -/
def upsertLock (name account : String) (now : Int) : List Lock → List Lock
  | [] => [⟨name, account, now, 1⟩]
  | l :: ls =>
    if l.book = name ∧ l.account = account then
      { l with updatedAt := now, v := l.v + 1 } :: ls
    else
      l :: upsertLock name account now ls

/-- First lock document matching `{ book, account }`. -/
def lockLookup : List Lock → String → String → Option Lock
  | [], _, _ => none
  | l :: ls, n, a =>
    if l.book = n ∧ l.account = a then some l else lockLookup ls n a

/-- `Book.writelockAccounts` (`src/Book.ts:199-217`): deduplicate the input
accounts (first occurrence order), then upsert the `(book, account)` lock
document for each in sequence. Returns the final lock collection and the
sequence of accounts upserted. -/
def Book.writelockAccounts (b : Book) (now : Int) (locks : List Lock)
    (accounts : List String) : List Lock × List String :=
  let as := dedupFirst accounts
  (as.foldl (fun s a => upsertLock b.name a now s) locks, as)

/-- Whether an `Except` value is a success. -/
def exceptOk {ε α : Type} : Except ε α → Bool
  | .ok _ => true
  | .error _ => false

/-- Index of the first occurrence of an element in a list (length of the
list when absent). -/
def firstIdx (l : List String) (a : String) : Nat :=
  match l with
  | [] => 0
  | b :: bs => if b = a then 0 else firstIdx bs a + 1

/-- The `meta` binding of a filter, when present, is a nested object (the
shape `parseQuery` maintains whenever `meta` is not itself supplied as an
extra key). -/
def metaShapeOk (f : Filter) : Prop :=
  ∀ fv, lookupKA f "meta" = some fv → ∃ mm, fv = FVal.metaObj mm

/-- A date-string parser that accepts nothing (used for concrete queries
whose dates are not strings). -/
def pdNone : String → Option Int := fun _ => none

/-- Concrete fixtures used by the witness theorems. -/
def bkW : Book := ⟨"B", 8, 3, 60⟩

def txW1 : Tx :=
  { txId := "t1", book := "B", account_path := "a:b:c",
    accounts := ["a", "a:b", "a:b:c"], datetime := 10, timestamp := 11,
    credit := 5, debit := 2 }

def txW2 : Tx :=
  { txId := "t2", book := "B", account_path := "a:b:c",
    accounts := ["a", "a:b", "a:b:c"], datetime := 20, timestamp := 21,
    credit := 0, debit := 1 }

def snW : Snapshot :=
  { book := .str "B", account := some "a", meta := none, transaction := "t1",
    timestamp := 11, balance := 3, createdAt := 0 }

def stW : Store := { txs := [txW1, txW2], snapshots := [snW] }

def qW : Query := { account := some (.inl "a") }

def pqW : Filter := [("book", .val (.str "B")), ("accounts", .val (.str "a"))]

def outW : BalanceOut :=
  ⟨2, 1, some ⟨"B", some "a", none, "t2", 21, 2, 120⟩,
    [("book", .val (.str "B")), ("accounts", .val (.str "a")),
     ("_id", .gt "t1")]⟩

/-- A transaction whose metadata is literally `{ perPage: 0 }`. -/
def txP0 : Tx :=
  { txId := "t3", book := "B", account_path := "x", accounts := ["x"],
    datetime := 1, timestamp := 1, credit := 1, debit := 0,
    meta := [("perPage", Value.num 0)] }

/-- A concrete paginated ledger query. -/
def qL : Query := { perPage := some 1, page := some 2 }

/-- The whole-book filter of `bkW`. -/
def fB : Filter := [("book", .val (.str "B"))]

/-- The ledger outcome of `qL` on `stW`. -/
def outL : LedgerOut := ⟨[txW1], 2, fB, {}⟩

end Medici

namespace Medici

/-! ## Theorems -/

/-- A prototype attribute differs from any non-prototype key. -/
theorem proto_ne (k s : String) (hk : isPrototypeAttribute k = true)
    (hs : isPrototypeAttribute s = false) : k ≠ s := by
  intro h
  rw [h, hs] at hk
  cases hk

/-- Prototype attributes are not recognized transaction columns. -/
theorem proto_not_valid (k : String) (hk : isPrototypeAttribute k = true) :
    isValidTransactionKey k = false := by
  simp only [isPrototypeAttribute, List.mem_cons, List.mem_singleton,
    List.not_mem_nil, or_false, decide_eq_true_eq] at hk
  rcases hk with rfl | rfl | rfl
  · decide
  · decide
  · decide

/-- A prototype-attribute extra pair is skipped by the extra-key loop. -/
theorem extraStep_proto (acc : Filter) (kv : String × Value)
    (hk : isPrototypeAttribute kv.1 = true) : extraStep acc kv = acc := by
  rw [extraStep, if_pos hk]

/-- Equation lemma: `metaAssign` when the `meta` binding is an object. -/
theorem metaAssign_metaObj (acc : Filter) (k : String) (nv : Value)
    (m : List (String × Value)) (h : lookupKA acc "meta" = some (.metaObj m)) :
    metaAssign acc k nv = setKA acc "meta" (.metaObj (setKA m k nv)) := by
  rw [metaAssign, h]

/-- Equation lemma: `metaAssign` when there is no `meta` binding. -/
theorem metaAssign_none (acc : Filter) (k : String) (nv : Value)
    (h : lookupKA acc "meta" = none) :
    metaAssign acc k nv = setKA acc "meta" (.metaObj [(k, nv)]) := by
  rw [metaAssign, h]

/-- Equation lemma: `metaAssign` onto a truthy scalar `meta` binding. -/
theorem metaAssign_val_truthy (acc : Filter) (k : String) (nv v : Value)
    (h : lookupKA acc "meta" = some (.val v)) (ht : v.truthy = true) :
    metaAssign acc k nv = acc := by
  have hm : metaAssign acc k nv
      = if v.truthy then acc else setKA acc "meta" (.metaObj [(k, nv)]) := by
    rw [metaAssign, h]
  rw [hm, if_pos ht]

/-- Equation lemma: `metaAssign` onto a falsy scalar `meta` binding. -/
theorem metaAssign_val_falsy (acc : Filter) (k : String) (nv v : Value)
    (h : lookupKA acc "meta" = some (.val v)) (ht : v.truthy = false) :
    metaAssign acc k nv = setKA acc "meta" (.metaObj [(k, nv)]) := by
  have hm : metaAssign acc k nv
      = if v.truthy then acc else setKA acc "meta" (.metaObj [(k, nv)]) := by
    rw [metaAssign, h]
  rw [hm, if_neg (by rw [ht]; exact Bool.false_ne_true)]

/-- Equation lemma: `metaAssign` onto the remaining (truthy, non-object)
binding shapes. -/
theorem metaAssign_other (acc : Filter) (k : String) (nv : Value) (fv : FVal)
    (h : lookupKA acc "meta" = some fv) (hm : ∀ m, fv ≠ .metaObj m)
    (hv : ∀ v, fv ≠ .val v) : metaAssign acc k nv = acc := by
  cases fv with
  | metaObj m => exact absurd rfl (hm m)
  | val v => exact absurd rfl (hv v)
  | range g le => rw [metaAssign, h]
  | gt i => rw [metaAssign, h]
  | inList ps => rw [metaAssign, h]

/-- Equation lemma: `metaLookup` through an object `meta` binding. -/
theorem metaLookup_of_metaObj (f : Filter) (k : String)
    (m : List (String × Value)) (h : lookupKA f "meta" = some (.metaObj m)) :
    metaLookup f k = lookupKA m k := by
  rw [metaLookup, h]

/-- Equation lemma: `metaLookup` with no `meta` binding. -/
theorem metaLookup_of_none (f : Filter) (k : String)
    (h : lookupKA f "meta" = none) : metaLookup f k = none := by
  rw [metaLookup, h]

/-- Equation lemma: `metaLookup` through a non-object `meta` binding. -/
theorem metaLookup_of_not_obj (f : Filter) (k : String) (fv : FVal)
    (h : lookupKA f "meta" = some fv) (hm : ∀ m, fv ≠ .metaObj m) :
    metaLookup f k = none := by
  cases fv with
  | metaObj m => exact absurd rfl (hm m)
  | val v => rw [metaLookup, h]
  | range g le => rw [metaLookup, h]
  | gt i => rw [metaLookup, h]
  | inList ps => rw [metaLookup, h]

/-- `metaAssign` never changes bindings other than `meta`. -/
theorem lookupKA_metaAssign_ne (acc : Filter) (k : String) (nv : Value)
    (a : String) (ha : a ≠ "meta") :
    lookupKA (metaAssign acc k nv) a = lookupKA acc a := by
  cases h : lookupKA acc "meta" with
  | none => rw [metaAssign_none _ _ _ h, lookupKA_setKA_ne _ _ _ _ ha]
  | some fv =>
    cases fv with
    | metaObj m => rw [metaAssign_metaObj _ _ _ _ h, lookupKA_setKA_ne _ _ _ _ ha]
    | val v =>
      cases ht : v.truthy with
      | true => rw [metaAssign_val_truthy _ _ _ _ h ht]
      | false => rw [metaAssign_val_falsy _ _ _ _ h ht, lookupKA_setKA_ne _ _ _ _ ha]
    | range g le =>
      rw [metaAssign_other _ _ _ _ h (fun m hm => by cases hm)
        (fun v hv => by cases hv)]
    | gt i =>
      rw [metaAssign_other _ _ _ _ h (fun m hm => by cases hm)
        (fun v hv => by cases hv)]
    | inList ps =>
      rw [metaAssign_other _ _ _ _ h (fun m hm => by cases hm)
        (fun v hv => by cases hv)]

/-- Setting a key other than `meta` does not change nested meta lookups. -/
theorem metaLookup_setKA_ne (f : Filter) (s : String) (x : FVal) (a : String)
    (hs : s ≠ "meta") : metaLookup (setKA f s x) a = metaLookup f a := by
  rw [metaLookup, metaLookup, lookupKA_setKA_ne _ _ _ _ (Ne.symm hs)]

/-- The extra-key loop never touches a binding whose key is absent from the
remaining extra keys and different from `meta`. -/
theorem applyExtras_lookup_preserved (l : List (String × Value)) :
    ∀ (acc : Filter) (k : String), k ∉ l.map Prod.fst → k ≠ "meta" →
    lookupKA (applyExtras l acc) k = lookupKA acc k := by
  induction l with
  | nil => intro acc k _ _; rfl
  | cons kv kvs ih =>
    intro acc k hk hkm
    have hk1 : kv.1 ≠ k := by
      intro h
      subst h
      exact hk (by rw [List.map_cons]; exact List.mem_cons_self _ _)
    have hktail : k ∉ kvs.map Prod.fst := fun h =>
      hk (by rw [List.map_cons]; exact List.mem_cons_of_mem _ h)
    rw [applyExtras, List.foldl_cons, ← applyExtras, ih _ _ hktail hkm]
    by_cases hp : isPrototypeAttribute kv.1
    · rw [extraStep_proto _ _ hp]
    · rw [extraStep, if_neg hp]
      by_cases hv : isValidTransactionKey kv.1
      · rw [if_pos hv, lookupKA_setKA_ne _ _ _ _ hk1.symm]
      · rw [if_neg hv, lookupKA_metaAssign_ne _ _ _ _ hkm]

/-- The extra-key loop preserves an existing nested meta binding whose key
does not reappear, provided `meta` itself is not among the extra keys. -/
theorem applyExtras_metaLookup_preserved (l : List (String × Value)) :
    ∀ (acc : Filter) (k : String) (cv : Value), "meta" ∉ l.map Prod.fst →
    k ∉ l.map Prod.fst → metaLookup acc k = some cv →
    metaLookup (applyExtras l acc) k = some cv := by
  induction l with
  | nil => intro acc k cv _ _ h; exact h
  | cons kv kvs ih =>
    intro acc k cv hm hk hmv
    have hm1 : kv.1 ≠ "meta" := by
      intro h
      exact hm (by rw [List.map_cons, h]; exact List.mem_cons_self _ _)
    have hk1 : kv.1 ≠ k := by
      intro h
      exact hk (by rw [List.map_cons, h]; exact List.mem_cons_self _ _)
    have hmt : "meta" ∉ kvs.map Prod.fst := fun h =>
      hm (by rw [List.map_cons]; exact List.mem_cons_of_mem _ h)
    have hkt : k ∉ kvs.map Prod.fst := fun h =>
      hk (by rw [List.map_cons]; exact List.mem_cons_of_mem _ h)
    rw [applyExtras, List.foldl_cons, ← applyExtras]
    refine ih _ _ _ hmt hkt ?_
    by_cases hp : isPrototypeAttribute kv.1
    · rw [extraStep_proto _ _ hp]; exact hmv
    · rw [extraStep, if_neg hp]
      by_cases hv : isValidTransactionKey kv.1
      · rw [if_pos hv, metaLookup_setKA_ne _ _ _ _ hm1]; exact hmv
      · rw [if_neg hv]
        cases hmeta : lookupKA acc "meta" with
        | none =>
          rw [metaLookup_of_none _ _ hmeta] at hmv
          cases hmv
        | some fv =>
          cases fv with
          | metaObj m =>
            rw [metaLookup_of_metaObj _ _ _ hmeta] at hmv
            rw [metaAssign_metaObj _ _ _ _ hmeta,
              metaLookup_of_metaObj _ _ _ (lookupKA_setKA_self _ _ _),
              lookupKA_setKA_ne _ _ _ _ hk1.symm]
            exact hmv
          | val v =>
            rw [metaLookup_of_not_obj _ _ _ hmeta (fun m hm => by cases hm)]
              at hmv
            cases hmv
          | range g le =>
            rw [metaLookup_of_not_obj _ _ _ hmeta (fun m hm => by cases hm)]
              at hmv
            cases hmv
          | gt i =>
            rw [metaLookup_of_not_obj _ _ _ hmeta (fun m hm => by cases hm)]
              at hmv
            cases hmv
          | inList ps =>
            rw [metaLookup_of_not_obj _ _ _ hmeta (fun m hm => by cases hm)]
              at hmv
            cases hmv

/-- The extra-key loop preserves the meta-binding shape when `meta` is not
itself an extra key. -/
theorem metaShape_extraStep (acc : Filter) (kv : String × Value)
    (hm1 : kv.1 ≠ "meta") (hsh : metaShapeOk acc) :
    metaShapeOk (extraStep acc kv) := by
  by_cases hp : isPrototypeAttribute kv.1
  · rw [extraStep_proto _ _ hp]; exact hsh
  · rw [extraStep, if_neg hp]
    by_cases hv : isValidTransactionKey kv.1
    · rw [if_pos hv]
      intro fv hfv
      rw [lookupKA_setKA_ne _ _ _ _ (Ne.symm hm1)] at hfv
      exact hsh fv hfv
    · rw [if_neg hv]
      cases hmeta : lookupKA acc "meta" with
      | none =>
        rw [metaAssign_none _ _ _ hmeta]
        intro fv hfv
        rw [lookupKA_setKA_self] at hfv
        exact ⟨_, ((Option.some.injEq _ _).mp hfv).symm⟩
      | some fv0 =>
        cases fv0 with
        | metaObj m =>
          rw [metaAssign_metaObj _ _ _ _ hmeta]
          intro fv hfv
          rw [lookupKA_setKA_self] at hfv
          exact ⟨_, ((Option.some.injEq _ _).mp hfv).symm⟩
        | val v =>
          cases ht : v.truthy with
          | true => rw [metaAssign_val_truthy _ _ _ _ hmeta ht]; exact hsh
          | false =>
            rw [metaAssign_val_falsy _ _ _ _ hmeta ht]
            intro fv hfv
            rw [lookupKA_setKA_self] at hfv
            exact ⟨_, ((Option.some.injEq _ _).mp hfv).symm⟩
        | range g le =>
          rw [metaAssign_other _ _ _ _ hmeta (fun m hm => by cases hm)
            (fun v hv => by cases hv)]
          exact hsh
        | gt i =>
          rw [metaAssign_other _ _ _ _ hmeta (fun m hm => by cases hm)
            (fun v hv => by cases hv)]
          exact hsh
        | inList ps =>
          rw [metaAssign_other _ _ _ _ hmeta (fun m hm => by cases hm)
            (fun v hv => by cases hv)]
          exact hsh

/-- Routing of one extra pair through the whole extra-key loop: a
recognized column ends at top level with the coerced value, any other
non-prototype key ends nested under `meta`. -/
theorem extras_spec (l : List (String × Value)) :
    ∀ (acc : Filter) (k : String) (v : Value),
    (l.map Prod.fst).Nodup → "meta" ∉ l.map Prod.fst → (k, v) ∈ l →
    isPrototypeAttribute k = false → metaShapeOk acc →
    (isValidTransactionKey k = true →
      lookupKA (applyExtras l acc) k = some (.val (coerceExtra k v)))
    ∧ (isValidTransactionKey k = false →
      metaLookup (applyExtras l acc) k = some (coerceExtra k v)) := by
  induction l with
  | nil => intro acc k v _ _ hmem; cases hmem
  | cons kv kvs ih =>
    intro acc k v hnd hm hmem hp hsh
    have hm1 : kv.1 ≠ "meta" := by
      intro h
      exact hm (by rw [List.map_cons, h]; exact List.mem_cons_self _ _)
    have hmt : "meta" ∉ kvs.map Prod.fst := fun h =>
      hm (by rw [List.map_cons]; exact List.mem_cons_of_mem _ h)
    rcases List.mem_cons.mp hmem with heq | hmem
    · have hk1 : kv.1 = k := by rw [← heq]
      have hv1 : kv.2 = v := by rw [← heq]
      have hknotin : k ∉ kvs.map Prod.fst := by
        intro hin
        exact (List.nodup_cons.mp (by rwa [List.map_cons] at hnd)).1 (hk1 ▸ hin)
      have hkm : k ≠ "meta" := hk1 ▸ hm1
      rw [applyExtras, List.foldl_cons, ← applyExtras]
      constructor
      · intro hval
        rw [applyExtras_lookup_preserved kvs _ k hknotin hkm, extraStep, hk1,
          hv1, if_neg (by rw [hp]; exact Bool.false_ne_true), if_pos hval,
          lookupKA_setKA_self]
      · intro hval
        refine applyExtras_metaLookup_preserved kvs _ k _ hmt hknotin ?_
        rw [extraStep, hk1, hv1, if_neg (by rw [hp]; exact Bool.false_ne_true),
          if_neg (by rw [hval]; exact Bool.false_ne_true)]
        cases hmeta : lookupKA acc "meta" with
        | none =>
          rw [metaAssign_none _ _ _ hmeta,
            metaLookup_of_metaObj _ _ _ (lookupKA_setKA_self _ _ _),
            lookupKA, if_pos rfl]
        | some fv0 =>
          rcases hsh fv0 hmeta with ⟨mm, rfl⟩
          rw [metaAssign_metaObj _ _ _ _ hmeta,
            metaLookup_of_metaObj _ _ _ (lookupKA_setKA_self _ _ _),
            lookupKA_setKA_self]
    · have hndt : (kvs.map Prod.fst).Nodup :=
        (List.nodup_cons.mp (by rwa [List.map_cons] at hnd)).2
      rw [applyExtras, List.foldl_cons, ← applyExtras]
      exact ih _ k v hndt hmt hmem hp (metaShape_extraStep acc kv hm1 hsh)

/-- The base filter (book + account section) binds only `book`,
`account_path` and `accounts`. -/
theorem lookupKA_base_none (bookName : String)
    (account : Option (String ⊕ List String)) (mx : Nat) (k : String)
    (h1 : k ≠ "book") (h2 : k ≠ "account_path") (h3 : k ≠ "accounts") :
    lookupKA (("book", FVal.val (.str bookName)) ::
      parseAccountField account mx) k = none := by
  rw [lookupKA, if_neg (Ne.symm h1)]
  cases account with
  | none => rfl
  | some acc =>
    cases acc with
    | inl s =>
      rw [parseAccountField]
      by_cases hs : (jsSplit ':' s).length = mx
      · rw [if_pos hs, lookupKA, if_neg (Ne.symm h2)]; rfl
      · rw [if_neg hs, lookupKA, if_neg (Ne.symm h3)]; rfl
    | inr ls =>
      rw [parseAccountField]
      by_cases hs : ls.all (fun s => (jsSplit ':' s).length = mx) = true
      · rw [if_pos hs, lookupKA, if_neg (Ne.symm h2)]; rfl
      · rw [if_neg hs, lookupKA, if_neg (Ne.symm h3)]; rfl

/-- The date section only (possibly) writes the `datetime` binding. -/
theorem dateSection_lookup (pd : String → Option Int) (q : Query) (f f1 : Filter)
    (h : dateSection pd q f = some f1) (a : String) (ha : a ≠ "datetime") :
    lookupKA f1 a = lookupKA f a := by
  rw [dateSection] at h
  by_cases hg : (dTruthy q.start_date || dTruthy q.end_date) = true
  · rw [if_pos hg] at h
    cases hs : optParseDate pd q.start_date with
    | none => rw [hs, Option.none_bind] at h; cases h
    | some g =>
      rw [hs, Option.some_bind] at h
      cases he : optParseDate pd q.end_date with
      | none => rw [he, Option.map_none'] at h; cases h
      | some le =>
        rw [he, Option.map_some'] at h
        injection h with hh
        subst hh
        rw [lookupKA_setKA_ne _ _ _ _ ha]
  · rw [if_neg hg] at h
    injection h with hh
    subst hh
    rfl

/-- The pagination rest-object pairs carry only the keys `perPage` and
`page`. -/
theorem mem_pagExtras_keys (q : Query) (k : String)
    (hk : k ∈ (pagExtras q).map Prod.fst) : k = "perPage" ∨ k = "page" := by
  rcases List.mem_map.mp hk with ⟨kv, hmem, rfl⟩
  rw [pagExtras] at hmem
  rcases List.mem_append.mp hmem with h | h
  · cases hpp : q.perPage with
    | none =>
      rw [hpp] at h
      have h' : kv ∈ ([] : List (String × Value)) := h
      cases h'
    | some pp =>
      rw [hpp] at h
      have h' : kv ∈ [("perPage", Value.num pp)] := h
      left
      rw [List.mem_singleton.mp h']
  · cases hpg : q.page with
    | none =>
      rw [hpg] at h
      have h' : kv ∈ ([] : List (String × Value)) := h
      cases h'
    | some pg =>
      rw [hpg] at h
      have h' : kv ∈ [("page", Value.num pg)] := h
      right
      rw [List.mem_singleton.mp h']

/-- Skipping a prototype pair anywhere in the extra list leaves the loop's
result unchanged. -/
theorem applyExtras_middle_proto (l1 l2 : List (String × Value)) (k : String)
    (v : Value) (f : Filter) (hk : isPrototypeAttribute k = true) :
    applyExtras (l1 ++ (k, v) :: l2) f = applyExtras (l1 ++ l2) f := by
  rw [applyExtras, applyExtras, List.foldl_append, List.foldl_append,
    List.foldl_cons, extraStep_proto _ _ hk]

/-- A prototype attribute that is bound nowhere stays bound nowhere through
the extra-key loop. -/
theorem applyExtras_proto_none (l : List (String × Value)) :
    ∀ (acc : Filter) (k : String), isPrototypeAttribute k = true →
    lookupKA acc k = none → metaLookup acc k = none →
    lookupKA (applyExtras l acc) k = none
      ∧ metaLookup (applyExtras l acc) k = none := by
  induction l with
  | nil => intro acc k _ h1 h2; exact ⟨h1, h2⟩
  | cons kv kvs ih =>
    intro acc k hk hl hmv
    have hkm : k ≠ "meta" := proto_ne k "meta" hk (by decide)
    rw [applyExtras, List.foldl_cons, ← applyExtras]
    by_cases hp : isPrototypeAttribute kv.1
    · rw [extraStep_proto _ _ hp]
      exact ih _ _ hk hl hmv
    · have hp' : isPrototypeAttribute kv.1 = false := by simpa using hp
      have hne : k ≠ kv.1 := proto_ne k kv.1 hk hp'
      refine ih _ _ hk ?_ ?_
      all_goals rw [extraStep, if_neg hp]
      · by_cases hv : isValidTransactionKey kv.1
        · rw [if_pos hv, lookupKA_setKA_ne _ _ _ _ hne]
          exact hl
        · rw [if_neg hv, lookupKA_metaAssign_ne _ _ _ _ hkm]
          exact hl
      · by_cases hv : isValidTransactionKey kv.1
        · rw [if_pos hv]
          by_cases hvm : kv.1 = "meta"
          · rw [hvm]
            exact metaLookup_of_not_obj _ _ _ (lookupKA_setKA_self _ _ _)
              (fun m hm => by cases hm)
          · rw [metaLookup_setKA_ne _ _ _ _ hvm]
            exact hmv
        · rw [if_neg hv]
          cases hmeta : lookupKA acc "meta" with
          | none =>
            rw [metaAssign_none _ _ _ hmeta,
              metaLookup_of_metaObj _ _ _ (lookupKA_setKA_self _ _ _),
              lookupKA, if_neg (Ne.symm hne)]
            rfl
          | some fv =>
            cases fv with
            | metaObj m =>
              rw [metaLookup_of_metaObj _ _ _ hmeta] at hmv
              rw [metaAssign_metaObj _ _ _ _ hmeta,
                metaLookup_of_metaObj _ _ _ (lookupKA_setKA_self _ _ _),
                lookupKA_setKA_ne _ _ _ _ hne]
              exact hmv
            | val v0 =>
              cases ht : v0.truthy with
              | true =>
                rw [metaAssign_val_truthy _ _ _ _ hmeta ht]
                exact hmv
              | false =>
                rw [metaAssign_val_falsy _ _ _ _ hmeta ht,
                  metaLookup_of_metaObj _ _ _ (lookupKA_setKA_self _ _ _),
                  lookupKA, if_neg (Ne.symm hne)]
                rfl
            | range g le =>
              rw [metaAssign_other _ _ _ _ hmeta (fun m hm => by cases hm)
                (fun v0 hv0 => by cases hv0)]
              exact hmv
            | gt i =>
              rw [metaAssign_other _ _ _ _ hmeta (fun m hm => by cases hm)
                (fun v0 hv0 => by cases hv0)]
              exact hmv
            | inList ps =>
              rw [metaAssign_other _ _ _ _ hmeta (fun m hm => by cases hm)
                (fun v0 hv0 => by cases hv0)]
              exact hmv

/-- **C8** (confirmed): a query whose extras contain a prototype-polluting
key compiles exactly as if the pair were absent — the pair is silently
dropped, the compiled filter binds no such key at top level or under
`meta`, and no error is raised (the compilation outcome is unchanged). -/
theorem parse_query_proto_guard (pd : String → Option Int) (nm : String)
    (mx : Nat) (q : Query) (l1 l2 : List (String × Value)) (k : String)
    (v : Value) (hk : isPrototypeAttribute k = true)
    (hextra : q.extra = l1 ++ (k, v) :: l2) :
    parseQuery pd nm mx q = parseQuery pd nm mx { q with extra := l1 ++ l2 }
    ∧ ∀ f, parseQuery pd nm mx q = some f →
        lookupKA f k = none ∧ metaLookup f k = none := by
  constructor
  · simp only [parseQuery, extraFull]
    rw [hextra]
    have hqd : dateSection pd { q with extra := l1 ++ l2 }
        (("book", FVal.val (.str nm)) :: parseAccountField q.account mx)
      = dateSection pd q
        (("book", FVal.val (.str nm)) :: parseAccountField q.account mx) := rfl
    have hpg : pagExtras { q with extra := l1 ++ l2 } = pagExtras q := rfl
    rw [hqd, hpg]
    have h1 : (l1 ++ (k, v) :: l2) ++ pagExtras q
        = l1 ++ (k, v) :: (l2 ++ pagExtras q) := by simp
    have h2 : (l1 ++ l2) ++ pagExtras q = l1 ++ (l2 ++ pagExtras q) :=
      List.append_assoc _ _ _
    rw [h1, h2]
    cases hds : dateSection pd q (("book", FVal.val (.str nm)) ::
        parseAccountField q.account mx) with
    | none => rfl
    | some f1 =>
      rw [Option.map_some', Option.map_some',
        applyExtras_middle_proto l1 (l2 ++ pagExtras q) k v f1 hk]
  · intro f hf
    simp only [parseQuery] at hf
    rcases Option.map_eq_some'.mp hf with ⟨f1, hds, rfl⟩
    have hb : lookupKA f1 k = none := by
      rw [dateSection_lookup pd q _ f1 hds k (proto_ne k "datetime" hk (by decide)),
        lookupKA_base_none nm q.account mx k (proto_ne k "book" hk (by decide))
          (proto_ne k "account_path" hk (by decide))
          (proto_ne k "accounts" hk (by decide))]
    have hmv : metaLookup f1 k = none := by
      refine metaLookup_of_none _ _ ?_
      rw [dateSection_lookup pd q _ f1 hds "meta" (by decide),
        lookupKA_base_none nm q.account mx "meta" (by decide) (by decide)
          (by decide)]
    exact applyExtras_proto_none (extraFull q) f1 k hk hb hmv

/-- **C8** witness: the concrete prototype-poisoned query compiles exactly
as without the poisoned pair. -/
theorem parse_query_proto_guard_witness :
    parseQuery pdNone "B" 3
        { extra := [("a", Value.num 2), ("__proto__", Value.num 1)] }
      = parseQuery pdNone "B" 3 { extra := [("a", Value.num 2)] } :=
  (parse_query_proto_guard pdNone "B" 3
      { extra := [("a", Value.num 2), ("__proto__", Value.num 1)] }
      [("a", Value.num 2)] [] "__proto__" (Value.num 1) (by decide) rfl).1

/-- **C2** (corrected): the claim quantifies over every extra key/value
pair, but a prototype-polluting extra key (`__proto__`, `constructor`,
`prototype`) is placed neither at top level nor under `meta` — it is
silently dropped, so the compiled filter of the concrete query below has no
binding for it anywhere. -/
theorem parse_query_extra_routing_counterexample :
    isValidTransactionKey "__proto__" = false
    ∧ parseQuery pdNone "B" 3 { extra := [("__proto__", Value.num 1)] }
        = some [("book", FVal.val (Value.str "B"))]
    ∧ metaLookup [("book", FVal.val (Value.str "B"))] "__proto__" = none := by
  refine ⟨by decide, by decide, by decide⟩

/-- **C2** (amended): for every extra pair whose key is not a
prototype-polluting key, in a query whose extra keys are distinct and do
not include the literal key `meta`, the compiler places the pair at top
level when the key is a recognized transaction column (coercing a string
value to an ObjectId for identifier columns) and otherwise nests it under
`meta.<key>`. -/
theorem parse_query_extra_routing_amended (pd : String → Option Int)
    (nm : String) (mx : Nat) (q : Query) (f : Filter) (k : String) (v : Value)
    (hnd : ((extraFull q).map Prod.fst).Nodup)
    (hm : "meta" ∉ (extraFull q).map Prod.fst)
    (hmem : (k, v) ∈ extraFull q)
    (hp : isPrototypeAttribute k = false)
    (hf : parseQuery pd nm mx q = some f) :
    (isValidTransactionKey k = true →
      lookupKA f k = some (.val (coerceExtra k v)))
    ∧ (isValidTransactionKey k = false →
      metaLookup f k = some (coerceExtra k v)) := by
  simp only [parseQuery] at hf
  rcases Option.map_eq_some'.mp hf with ⟨f1, hds, rfl⟩
  have hshape : metaShapeOk f1 := by
    intro fv hfv
    rw [dateSection_lookup pd q _ f1 hds "meta" (by decide),
      lookupKA_base_none nm q.account mx "meta" (by decide) (by decide)
        (by decide)] at hfv
    cases hfv
  exact extras_spec (extraFull q) f1 k v hnd hm hmem hp hshape

/-- **C2** witness: `_journal` (an identifier column) is coerced and placed
at top level, `clientId` is nested under `meta`. -/
theorem parse_query_extra_routing_witness :
    (isValidTransactionKey "_journal" = true →
      lookupKA [("book", FVal.val (Value.str "B")),
          ("_journal", FVal.val (Value.objectId "aaaa")),
          ("meta", FVal.metaObj [("clientId", Value.num 7)])] "_journal"
        = some (.val (coerceExtra "_journal" (Value.str "aaaa"))))
    ∧ (isValidTransactionKey "_journal" = false →
      metaLookup [("book", FVal.val (Value.str "B")),
          ("_journal", FVal.val (Value.objectId "aaaa")),
          ("meta", FVal.metaObj [("clientId", Value.num 7)])] "_journal"
        = some (coerceExtra "_journal" (Value.str "aaaa"))) :=
  parse_query_extra_routing_amended pdNone "B" 3
    { extra := [("_journal", Value.str "aaaa"), ("clientId", Value.num 7)] }
    [("book", FVal.val (Value.str "B")),
     ("_journal", FVal.val (Value.objectId "aaaa")),
     ("meta", FVal.metaObj [("clientId", Value.num 7)])]
    "_journal" (Value.str "aaaa") (by decide) (by decide) (by decide)
    (by decide) (by decide)

/-- **C4** (corrected): a falsy `start_date` (numeric epoch `0`) is treated
as absent — both dates are present below, yet the compiled range has no
`$gte` bound — and an extra key literally named `datetime` overwrites the
compiled range entirely. -/
theorem parse_query_date_range_counterexample :
    parseQuery pdNone "B" 3
        { start_date := some (.num 0), end_date := some (.num 5) }
      = some [("book", FVal.val (Value.str "B")),
              ("datetime", FVal.range none (some 5))]
    ∧ FVal.range none (some 5) ≠ FVal.range (some 0) (some 5)
    ∧ parseQuery pdNone "B" 3
        { start_date := some (.num 3), end_date := some (.num 5),
          extra := [("datetime", Value.bool true)] }
      = some [("book", FVal.val (Value.str "B")),
              ("datetime", FVal.val (Value.bool true))] := by
  refine ⟨by decide, by decide, by decide⟩

/-- **C4** (amended): `start_date` / `end_date` each accept a native
timestamp, a parseable date string, or a numeric epoch in milliseconds,
except that falsy values (numeric `0`, the empty string) are treated as
absent; when both are present, truthy and parseable, and no extra key
named `datetime` appears in the query, the compiled filter constrains
`datetime` to the inclusive range (`$gte` start, `$lte` end). -/
theorem parse_query_date_range_amended (pd : String → Option Int)
    (nm : String) (mx : Nat) (q : Query) (sd ed : DateInput) (g le : Int)
    (f : Filter)
    (hs : q.start_date = some sd) (hst : sd.truthy = true)
    (hsg : parseDateField pd sd = some g)
    (he : q.end_date = some ed) (het : ed.truthy = true)
    (hel : parseDateField pd ed = some le)
    (hnd : "datetime" ∉ q.extra.map Prod.fst)
    (hf : parseQuery pd nm mx q = some f) :
    lookupKA f "datetime" = some (.range (some g) (some le)) := by
  simp only [parseQuery] at hf
  rcases Option.map_eq_some'.mp hf with ⟨f1, hds, rfl⟩
  have hfull : "datetime" ∉ (extraFull q).map Prod.fst := by
    rw [extraFull, List.map_append]
    intro hmem
    rcases List.mem_append.mp hmem with hmem | hmem
    · exact hnd hmem
    · rcases mem_pagExtras_keys q _ hmem with h | h
      · exact absurd h (by decide)
      · exact absurd h (by decide)
  rw [applyExtras_lookup_preserved (extraFull q) f1 "datetime" hfull (by decide)]
  have hg : (dTruthy q.start_date || dTruthy q.end_date) = true := by
    rw [hs]
    simp [dTruthy, hst]
  have h1 : optParseDate pd q.start_date = some (some g) := by
    rw [hs, optParseDate, if_pos hst, hsg]
    rfl
  have h2 : optParseDate pd q.end_date = some (some le) := by
    rw [he, optParseDate, if_pos het, hel]
    rfl
  rw [dateSection, if_pos hg, h1, Option.some_bind, h2, Option.map_some']
    at hds
  injection hds with hh
  subst hh
  rw [lookupKA_setKA_self]

/-- **C4** witness: both bounds present and truthy yield the inclusive
range. -/
theorem parse_query_date_range_witness :
    lookupKA [("book", FVal.val (Value.str "B")),
        ("datetime", FVal.range (some 3) (some 5))] "datetime"
      = some (.range (some 3) (some 5)) :=
  parse_query_date_range_amended pdNone "B" 3
    { start_date := some (.num 3), end_date := some (.num 5) }
    (.num 3) (.num 5) 3 5
    [("book", FVal.val (Value.str "B")),
     ("datetime", FVal.range (some 3) (some 5))]
    rfl (by decide) rfl rfl (by decide) rfl (by decide) (by decide)

/-- A string has length zero exactly when it is empty. -/
theorem string_length_zero_iff (s : String) : s.length = 0 ↔ s = "" := by
  cases s with
  | mk data =>
    simp [String.length, List.length_eq_zero, String.ext_iff]

/-- **C6** (corrected): the claim is false on two counts. A name that is
non-empty but trims to the empty string (`" "`) is rejected, and a
non-integer `balanceSnapshotSec` (`1/2`) is accepted, because the source
checks only `typeof === "number"` and non-negativity for it, with no
`Number.isInteger` check. -/
theorem book_construct_claim_counterexample :
    (" " : String) ≠ "" ∧
    Book.construct " " none none none
      = .error (.bookConstructor "Invalid value for name provided.") ∧
    (mkRat 1 2).den ≠ 1 ∧
    Book.construct "b" none none (some (mkRat 1 2))
      = .ok ⟨"b", 8, 3, mkRat 1 2⟩ := by
  refine ⟨by decide, by decide, by decide, by decide⟩

/-- **C6** (amended): the constructor succeeds exactly when the name trims
to a non-empty string, `precision` and `maxAccountPath` (defaults 8 and 3)
are non-negative integers, and `balanceSnapshotSec` (default 86400) is a
non-negative number, integrality not required; every rejection is a
`BookConstructorError`. -/
theorem book_construct_amended (name : String) (p m s : Option ℚ) :
    (exceptOk (Book.construct name p m s) = true ↔
      (jsTrim name ≠ "" ∧ (p.getD 8).den = 1 ∧ 0 ≤ p.getD 8 ∧
       (m.getD 3).den = 1 ∧ 0 ≤ m.getD 3 ∧ 0 ≤ s.getD 86400))
    ∧ (∀ b, Book.construct name p m s = .ok b →
        b = ⟨name, (p.getD 8).num.toNat, (m.getD 3).num.toNat, s.getD 86400⟩)
    ∧ (exceptOk (Book.construct name p m s) = false →
        ∃ msg, Book.construct name p m s = .error (.bookConstructor msg)) := by
  have hdef : (((24 : ℚ) * 60 * 60) : ℚ) = 86400 := by norm_num
  simp only [Book.construct, hdef]
  by_cases h1 : (jsTrim name).length = 0
  · rw [if_pos h1]
    refine ⟨?_, ?_, fun _ => ⟨_, rfl⟩⟩
    · refine iff_of_false (by simp [exceptOk]) ?_
      intro hc
      exact hc.1 ((string_length_zero_iff _).mp h1)
    · intro b hb; cases hb
  · rw [if_neg h1]
    by_cases h2 : (p.getD 8).den = 1 ∧ 0 ≤ p.getD 8
    · rw [if_neg (not_not_intro h2)]
      by_cases h3 : (m.getD 3).den = 1 ∧ 0 ≤ m.getD 3
      · rw [if_neg (not_not_intro h3)]
        by_cases h4 : s.getD 86400 < 0
        · rw [if_pos h4]
          refine ⟨?_, ?_, fun _ => ⟨_, rfl⟩⟩
          · refine iff_of_false (by simp [exceptOk]) ?_
            intro hc
            exact absurd hc.2.2.2.2.2 (not_le.mpr h4)
          · intro b hb; cases hb
        · rw [if_neg h4]
          refine ⟨?_, ?_, ?_⟩
          · refine iff_of_true (by simp [exceptOk])
              ⟨fun hc => h1 (by rw [(string_length_zero_iff _).mpr hc]),
               h2.1, h2.2, h3.1, h3.2, not_lt.mp h4⟩
          · intro b hb
            cases hb; rfl
          · intro hb
            simp [exceptOk] at hb
      · rw [if_pos h3]
        refine ⟨?_, ?_, fun _ => ⟨_, rfl⟩⟩
        · refine iff_of_false (by simp [exceptOk]) ?_
          intro hc
          exact h3 ⟨hc.2.2.2.1, hc.2.2.2.2.1⟩
        · intro b hb; cases hb
    · rw [if_pos h2]
      refine ⟨?_, ?_, fun _ => ⟨_, rfl⟩⟩
      · refine iff_of_false (by simp [exceptOk]) ?_
        intro hc
        exact h2 ⟨hc.2.1, hc.2.2.1⟩
      · intro b hb; cases hb

/-- Rounding preserves zero. -/
theorem roundFix_zero (p : Nat) : roundFix p 0 = 0 := by
  simp [roundFix]

/-- `lastOf` is `none` exactly on the empty list. -/
theorem lastOf_eq_none (l : List Tx) : lastOf l = none ↔ l = [] := by
  induction l with
  | nil => simp [lastOf]
  | cons t ts ih =>
    cases ts with
    | nil => simp [lastOf]
    | cons t' ts' =>
      have h : lastOf (t :: t' :: ts') = lastOf (t' :: ts') := rfl
      rw [h, ih]
      simp

/-- The aggregation returns no row when no transaction matches. -/
theorem aggregate_of_empty (store : Store) (f : Filter)
    (h : deltaTxs store f = []) : aggregate store f = none := by
  rw [aggregate, h]
  rfl

/-- The aggregation row when at least one transaction matches. -/
theorem aggregate_of_last (store : Store) (f : Filter) (t : Tx)
    (h : lastOf (deltaTxs store f) = some t) :
    aggregate store f
      = some ⟨sumCD (deltaTxs store f), (deltaTxs store f).length, t.txId,
          t.timestamp⟩ := by
  rw [aggregate, h]

/-- Equation lemma: the balance core when the delta aggregation saw no
transaction. -/
theorem balanceCore_agg_none (b : Book) (store : Store) (now : Int)
    (q : Query) (pq : Filter)
    (h : aggregate store (narrowFilter pq (b.liveSnap store q pq)) = none) :
    b.balanceCore store now q pq
      = ⟨((b.liveSnap store q pq).map Snapshot.balance).getD 0, 0, none,
          narrowFilter pq (b.liveSnap store q pq)⟩ := by
  rw [Book.balanceCore, h]

/-- Equation lemma: the balance core when the delta aggregation saw at
least one transaction. -/
theorem balanceCore_agg_some (b : Book) (store : Store) (now : Int)
    (q : Query) (pq : Filter) (agg : AggOut)
    (h : aggregate store (narrowFilter pq (b.liveSnap store q pq))
      = some agg) :
    b.balanceCore store now q pq
      = ⟨((b.liveSnap store q pq).map Snapshot.balance).getD 0
            + roundFix b.precision agg.balance,
          agg.count,
          if b.refreshNeeded now (b.liveSnap store q pq) then
            some ⟨b.name, accountForSnap q.account, lookupKA pq "meta",
              agg.lastTransactionId, agg.lastTimestamp,
              ((b.liveSnap store q pq).map Snapshot.balance).getD 0
                + roundFix b.precision agg.balance,
              b.balanceSnapshotSec * 2⟩
          else none,
          narrowFilter pq (b.liveSnap store q pq)⟩ := by
  rw [Book.balanceCore, h]

/-- **C1** (confirmed): every balance result equals the consulted best
snapshot's balance (0 if none was consulted) plus the rounded
`credit − debit` sum of the delta aggregation over the narrowed filter, and
`notes` is the delta aggregation's transaction count; in particular, no
snapshot + no matching transactions gives `{balance, notes} = {0, 0}`, and
a snapshot with no new transactions gives the snapshot's own balance with
`notes = 0`. -/
theorem book_balance_claim (b : Book) (pd : String → Option Int)
    (store : Store) (now : Int) (q : Query) (pq : Filter) (out : BalanceOut)
    (hpq : parseQuery pd b.name b.maxAccountPath q = some pq)
    (hout : Book.balance b pd store now q = some out) :
    (out.balance = ((b.liveSnap store q pq).map Snapshot.balance).getD 0
        + roundFix b.precision
            (sumCD (deltaTxs store (narrowFilter pq (b.liveSnap store q pq))))
      ∧ out.notes
        = (deltaTxs store (narrowFilter pq (b.liveSnap store q pq))).length)
    ∧ (b.liveSnap store q pq = none → deltaTxs store pq = [] →
        out.balance = 0 ∧ out.notes = 0)
    ∧ (∀ s, b.liveSnap store q pq = some s →
        deltaTxs store (narrowFilter pq (some s)) = [] →
        out.balance = s.balance ∧ out.notes = 0) := by
  rw [Book.balance, hpq, Option.map_some'] at hout
  injection hout with hout
  subst hout
  cases hlast : lastOf (deltaTxs store (narrowFilter pq (b.liveSnap store q pq))) with
  | none =>
    have hempty := (lastOf_eq_none _).mp hlast
    rw [balanceCore_agg_none b store now q pq (aggregate_of_empty _ _ hempty)]
    refine ⟨⟨?_, ?_⟩, ?_, ?_⟩
    · dsimp only
      rw [hempty]
      rw [show sumCD [] = 0 from rfl, roundFix_zero, add_zero]
    · dsimp only
      rw [hempty]
      rfl
    · intro hsnap _
      constructor
      · show ((b.liveSnap store q pq).map Snapshot.balance).getD 0 = 0
        rw [hsnap]
        rfl
      · rfl
    · intro s hsnap _
      constructor
      · show ((b.liveSnap store q pq).map Snapshot.balance).getD 0 = s.balance
        rw [hsnap]
        rfl
      · rfl
  | some t =>
    rw [balanceCore_agg_some b store now q pq _ (aggregate_of_last _ _ _ hlast)]
    refine ⟨⟨rfl, rfl⟩, ?_, ?_⟩
    · intro hsnap hempty
      rw [hsnap] at hlast
      rw [show narrowFilter pq none = pq from rfl, hempty] at hlast
      cases hlast
    · intro s hsnap hempty
      rw [hsnap, hempty] at hlast
      cases hlast

/-- **C1** witness: a concrete stale snapshot plus a one-transaction
delta. -/
theorem book_balance_claim_witness :
    (outW.balance = ((bkW.liveSnap stW qW pqW).map Snapshot.balance).getD 0
        + roundFix bkW.precision
            (sumCD (deltaTxs stW (narrowFilter pqW (bkW.liveSnap stW qW pqW))))
      ∧ outW.notes
        = (deltaTxs stW (narrowFilter pqW (bkW.liveSnap stW qW pqW))).length)
    ∧ (bkW.liveSnap stW qW pqW = none → deltaTxs stW pqW = [] →
        outW.balance = 0 ∧ outW.notes = 0)
    ∧ (∀ s, bkW.liveSnap stW qW pqW = some s →
        deltaTxs stW (narrowFilter pqW (some s)) = [] →
        outW.balance = s.balance ∧ outW.notes = 0) :=
  book_balance_claim bkW pdNone stW 1000000 qW pqW outW
    (by decide) (by with_unfolding_all decide)

/-- **C3** (confirmed): with snapshots enabled, a snapshot is written
exactly when a refresh was needed (no applicable snapshot, or a stale one)
and the delta aggregation saw at least one transaction; the written
snapshot carries `expireInSec = 2 × balanceSnapshotSec`; and whenever a
snapshot was consulted, the live filter is narrowed by
`_id > snapshot.transaction`. -/
theorem book_balance_snapshot_write (b : Book) (pd : String → Option Int)
    (store : Store) (now : Int) (q : Query) (pq : Filter) (out : BalanceOut)
    (_hsec : 0 < b.balanceSnapshotSec)
    (hpq : parseQuery pd b.name b.maxAccountPath q = some pq)
    (hout : Book.balance b pd store now q = some out) :
    out.written.isSome
      = (b.refreshNeeded now (b.liveSnap store q pq)
          && !(deltaTxs store (narrowFilter pq (b.liveSnap store q pq))).isEmpty)
    ∧ (∀ w, out.written = some w →
        w.expireInSec = 2 * b.balanceSnapshotSec)
    ∧ (∀ s, b.liveSnap store q pq = some s →
        out.finalFilter = setKA pq "_id" (.gt s.transaction)) := by
  rw [Book.balance, hpq, Option.map_some'] at hout
  injection hout with hout
  subst hout
  cases hlast : lastOf (deltaTxs store (narrowFilter pq (b.liveSnap store q pq))) with
  | none =>
    have hempty := (lastOf_eq_none _).mp hlast
    rw [balanceCore_agg_none b store now q pq (aggregate_of_empty _ _ hempty)]
    refine ⟨?_, ?_, ?_⟩
    · dsimp only
      rw [hempty]
      simp
    · intro w hw
      dsimp only at hw
      cases hw
    · intro s hsnap
      dsimp only
      rw [hsnap]
      rfl
  | some t =>
    rw [balanceCore_agg_some b store now q pq _ (aggregate_of_last _ _ _ hlast)]
    have hie : (deltaTxs store (narrowFilter pq (b.liveSnap store q pq))).isEmpty
        = false := by
      cases hd : deltaTxs store (narrowFilter pq (b.liveSnap store q pq)) with
      | nil => rw [hd] at hlast; cases hlast
      | cons a as => rfl
    refine ⟨?_, ?_, ?_⟩
    · dsimp only
      rw [hie]
      cases hr : b.refreshNeeded now (b.liveSnap store q pq) with
      | true => simp
      | false => simp
    · intro w hw
      dsimp only at hw
      by_cases hr : b.refreshNeeded now (b.liveSnap store q pq) = true
      · rw [if_pos hr] at hw
        injection hw with hw
        subst hw
        show b.balanceSnapshotSec * 2 = 2 * b.balanceSnapshotSec
        exact mul_comm _ _
      · rw [if_neg hr] at hw
        cases hw
    · intro s hsnap
      dsimp only
      rw [hsnap]
      rfl

/-- **C3** witness: the stale concrete snapshot triggers a refresh write
with doubled TTL, and the live filter is narrowed past its transaction. -/
theorem book_balance_snapshot_write_witness :
    outW.written.isSome
      = (bkW.refreshNeeded 1000000 (bkW.liveSnap stW qW pqW)
          && !(deltaTxs stW (narrowFilter pqW (bkW.liveSnap stW qW pqW))).isEmpty)
    ∧ (∀ w, outW.written = some w →
        w.expireInSec = 2 * bkW.balanceSnapshotSec)
    ∧ (∀ s, bkW.liveSnap stW qW pqW = some s →
        outW.finalFilter = setKA pqW "_id" (.gt s.transaction)) :=
  book_balance_snapshot_write bkW pdNone stW 1000000 qW pqW outW
    (by decide) (by decide) (by with_unfolding_all decide)

/-- `toNat` distributes over products of non-negative integers. -/
theorem int_toNat_mul (x y : Int) (hx : 0 ≤ x) (hy : 0 ≤ y) :
    (x * y).toNat = x.toNat * y.toNat := by
  have h : ((x * y).toNat : Int) = ((x.toNat * y.toNat : Nat) : Int) := by
    push_cast
    rw [Int.toNat_of_nonneg hx, Int.toNat_of_nonneg hy,
      Int.toNat_of_nonneg (mul_nonneg hx hy)]
  exact_mod_cast h

/-- **C5** (corrected): the claim fails for a negative `page` (the computed
skip is `(page − 1) × perPage`, which is negative, and the store rejects
the query — nothing is enumerated at all) and for `perPage = 0` (falsy, so
pagination is not applied: the result is not limited to 0 documents, as a
transaction carrying metadata `{perPage: 0}` demonstrates). -/
theorem book_ledger_pagination_counterexample :
    Book.ledger bkW pdNone { txs := [txW1] }
        { perPage := some 10, page := some (-1) } = none
    ∧ Book.ledger bkW pdNone { txs := [txP0] } { perPage := some 0 }
        = some ⟨[txP0], 1,
            [("book", .val (.str "B")),
             ("meta", .metaObj [("perPage", Value.num 0)])],
            { perPage := some 0 }⟩
    ∧ ([txP0].length ≠ 0) := by
  refine ⟨by decide, by decide, by decide⟩

/-- **C5** (amended): for every ledger query with `perPage` set to a
positive value and a non-negative (or absent) `page`, the enumeration skips
`max(0, page − 1) × perPage` documents of the sorted enumeration, limits
the result to `perPage` documents, and `total` is a count of all documents
matching the full filter (compiled from the query without its pagination
fields), independent of `page` and `perPage`. -/
theorem book_ledger_pagination_amended (b : Book) (pd : String → Option Int)
    (store : Store) (q : Query) (pp : Int) (f : Filter) (out : LedgerOut)
    (hpp : q.perPage = some pp) (hpos : 0 < pp)
    (hpage : 0 ≤ q.page.getD 0)
    (hf : parseQuery pd b.name b.maxAccountPath
      { q with perPage := none, page := none } = some f)
    (hout : Book.ledger b pd store q = some out) :
    out.results = ((ledgerSort (deltaTxs store f)).drop
        ((q.page.getD 0 - 1).toNat * pp.toNat)).take pp.toNat
    ∧ out.total = (deltaTxs store f).length
    ∧ out.filter = f := by
  have hpv : q.perPage.getD 0 = pp := by rw [hpp]; rfl
  have hne : q.perPage.getD 0 ≠ 0 := by rw [hpv]; omega
  rw [Book.ledger, if_pos hne, hf, Option.some_bind, ledgerPage] at hout
  have hsk : pageSkip q
      = (if q.page.getD 0 ≠ 0 then q.page.getD 0 - 1 else 0) * pp := by
    rw [pageSkip, hpv]
  have h0 : 0 ≤ pageSkip q := by
    rw [hsk]
    by_cases hpg : q.page.getD 0 ≠ 0
    · rw [if_pos hpg]
      exact mul_nonneg (by omega) (by omega)
    · rw [if_neg hpg]
      simp
  have hsknat : (pageSkip q).toNat = (q.page.getD 0 - 1).toNat * pp.toNat := by
    rw [hsk]
    by_cases hpg : q.page.getD 0 ≠ 0
    · rw [if_pos hpg]
      exact int_toNat_mul _ _ (by omega) (by omega)
    · rw [if_neg hpg]
      push_neg at hpg
      rw [hpg]
      simp
  rw [if_neg (not_lt.mpr h0)] at hout
  injection hout with hout
  subst hout
  refine ⟨?_, ?_, rfl⟩
  · dsimp only
    rw [hsknat, hpv]
    have hab : pp.natAbs = pp.toNat := by omega
    rw [hab]
  · dsimp only
    by_cases hlen : (deltaTxs store f).length ≠ 0
    · rw [if_pos hlen]
    · rw [if_neg hlen]
      push_neg at hlen
      have hnil := List.length_eq_zero.mp hlen
      rw [hnil, show ledgerSort ([] : List Tx) = [] from rfl, List.drop_nil,
        List.take_nil]

/-- **C5** witness: `perPage = 1, page = 2` skips one document and counts
the full filter. -/
theorem book_ledger_pagination_witness :
    outL.results = ((ledgerSort (deltaTxs stW fB)).drop
        ((qL.page.getD 0 - 1).toNat * (1 : Int).toNat)).take (1 : Int).toNat
    ∧ outL.total = (deltaTxs stW fB).length
    ∧ outL.filter = fB :=
  book_ledger_pagination_amended bkW pdNone stW qL 1 fB outL
    (by decide) (by decide) (by decide) (by decide)
    (by with_unfolding_all decide)

/-- **C10** (corrected): with `perPage` set to `0` the source's truthiness
test fails, so the pagination fields are **not** deleted from the caller's
query even though `perPage` is set — the claim's mutation promise fails at
`perPage = 0`. -/
theorem book_ledger_mutation_counterexample :
    Book.ledger bkW pdNone { txs := [txP0] } { perPage := some 0 }
      = some ⟨[txP0], 1,
          [("book", .val (.str "B")),
           ("meta", .metaObj [("perPage", Value.num 0)])],
          { perPage := some 0 }⟩
    ∧ ({ perPage := some 0 } : Query).perPage ≠ none := by
  refine ⟨by decide, by decide⟩

/-- **C10** (amended): when `perPage` is set to a nonzero (truthy) value,
`ledger` mutates the caller's query by deleting `perPage` and `page` before
compiling the filter (which is compiled from the mutated query); when
`perPage` is absent or `0`, the query object is left unchanged and the
filter is compiled from it as is. -/
theorem book_ledger_mutation_amended (b : Book) (pd : String → Option Int)
    (store : Store) (q : Query) (out : LedgerOut)
    (hout : Book.ledger b pd store q = some out) :
    (q.perPage.getD 0 ≠ 0 →
      out.queryAfter = { q with perPage := none, page := none }
      ∧ parseQuery pd b.name b.maxAccountPath out.queryAfter
          = some out.filter)
    ∧ (q.perPage.getD 0 = 0 →
      out.queryAfter = q
      ∧ parseQuery pd b.name b.maxAccountPath q = some out.filter) := by
  constructor
  · intro hpp
    rw [Book.ledger, if_pos hpp] at hout
    rcases Option.bind_eq_some.mp hout with ⟨f, hf, hpage⟩
    rw [ledgerPage] at hpage
    by_cases hs : pageSkip q < 0
    · rw [if_pos hs] at hpage
      cases hpage
    · rw [if_neg hs] at hpage
      injection hpage with hpage
      subst hpage
      exact ⟨rfl, hf⟩
  · intro hpp
    rw [Book.ledger, if_neg (not_not_intro hpp)] at hout
    rcases Option.map_eq_some'.mp hout with ⟨f, hf, rfl⟩
    exact ⟨rfl, hf⟩

/-- **C10** witness: a truthy `perPage` leaves the caller's query stripped
of its pagination fields, and the filter is compiled from the stripped
query. -/
theorem book_ledger_mutation_witness :
    (qL.perPage.getD 0 ≠ 0 →
      outL.queryAfter = { qL with perPage := none, page := none }
      ∧ parseQuery pdNone bkW.name bkW.maxAccountPath outL.queryAfter
          = some outL.filter)
    ∧ (qL.perPage.getD 0 = 0 →
      outL.queryAfter = qL
      ∧ parseQuery pdNone bkW.name bkW.maxAccountPath qL
          = some outL.filter) :=
  book_ledger_mutation_amended bkW pdNone stW qL outL
    (by with_unfolding_all decide)

/-- Membership in the deduplicated list. -/
theorem mem_dedupGo (l : List String) : ∀ (seen : List String) (a : String),
    a ∈ dedupGo seen l ↔ a ∈ l ∧ a ∉ seen := by
  induction l with
  | nil => intro seen a; simp [dedupGo]
  | cons b bs ih =>
    intro seen a
    by_cases hb : b ∈ seen
    · rw [dedupGo, if_pos hb, ih]
      constructor
      · rintro ⟨h1, h2⟩
        exact ⟨List.mem_cons_of_mem _ h1, h2⟩
      · rintro ⟨h1, h2⟩
        rcases List.mem_cons.mp h1 with rfl | h1
        · exact absurd hb h2
        · exact ⟨h1, h2⟩
    · rw [dedupGo, if_neg hb]
      constructor
      · intro h
        rcases List.mem_cons.mp h with rfl | h
        · exact ⟨List.mem_cons_self _ _, hb⟩
        · have hm := (ih _ _).mp h
          exact ⟨List.mem_cons_of_mem _ hm.1,
            fun hs => hm.2 (List.mem_cons_of_mem _ hs)⟩
      · rintro ⟨h1, h2⟩
        rcases List.mem_cons.mp h1 with rfl | h1
        · exact List.mem_cons_self _ _
        · by_cases hab : a = b
          · subst hab; exact List.mem_cons_self _ _
          · exact List.mem_cons_of_mem _ ((ih _ _).mpr
              ⟨h1, fun hs => (List.mem_cons.mp hs).elim hab h2⟩)

/-- The deduplicated list has no duplicates. -/
theorem nodup_dedupGo (l : List String) : ∀ seen, (dedupGo seen l).Nodup := by
  induction l with
  | nil => intro seen; simp [dedupGo]
  | cons b bs ih =>
    intro seen
    by_cases hb : b ∈ seen
    · rw [dedupGo, if_pos hb]; exact ih seen
    · rw [dedupGo, if_neg hb]
      refine List.nodup_cons.mpr ⟨?_, ih _⟩
      intro hmem
      exact ((mem_dedupGo bs _ b).mp hmem).2 (List.mem_cons_self _ _)

/-- First-occurrence index of an element absent from a prefix. -/
theorem firstIdx_append_not_mem (p : List String) : ∀ (r : List String) (a : String),
    a ∉ p → firstIdx (p ++ r) a = p.length + firstIdx r a := by
  induction p with
  | nil => intro r a _; simp
  | cons b bs ih =>
    intro r a h
    have hba : ¬(b = a) := fun hh => h (hh ▸ List.mem_cons_self _ _)
    rw [List.cons_append, firstIdx, if_neg hba,
      ih r a (fun hh => h (List.mem_cons_of_mem _ hh))]
    simp [List.length_cons]
    omega

/-- Elements produced by `dedupGo` appear in order of first occurrence in
`p ++ rest`, where `seen` holds exactly the elements of the already
processed prefix `p`. -/
theorem pairwise_dedupGo (rest : List String) : ∀ (p seen : List String),
    (∀ x, x ∈ seen ↔ x ∈ p) →
    List.Pairwise (fun x y => firstIdx (p ++ rest) x < firstIdx (p ++ rest) y)
      (dedupGo seen rest) := by
  induction rest with
  | nil => intro p seen _; simp [dedupGo]
  | cons a as ih =>
    intro p seen hsp
    by_cases ha : a ∈ seen
    · rw [dedupGo, if_pos ha]
      have h2 := ih (p ++ [a]) seen (fun x => by
        rw [hsp x]
        constructor
        · intro h; exact List.mem_append_left _ h
        · intro h
          rcases List.mem_append.mp h with h | h
          · exact h
          · rw [List.mem_singleton.mp h]
            exact (hsp a).mp ha)
      simpa using h2
    · rw [dedupGo, if_neg ha]
      have hap : a ∉ p := fun h => ha ((hsp a).mpr h)
      refine List.pairwise_cons.mpr ⟨?_, ?_⟩
      · intro b hb
        have hmem := (mem_dedupGo as (a :: seen) b).mp hb
        have hbp : b ∉ p := fun h => hmem.2 (List.mem_cons_of_mem _ ((hsp b).mpr h))
        have hba : ¬(a = b) := fun h => hmem.2 (h ▸ List.mem_cons_self _ _)
        rw [firstIdx_append_not_mem p _ a hap, firstIdx_append_not_mem p _ b hbp,
          firstIdx, if_pos rfl, firstIdx, if_neg hba]
        omega
      · have h2 := ih (p ++ [a]) (a :: seen) (fun x => by
          constructor
          · intro h
            rcases List.mem_cons.mp h with rfl | h
            · exact List.mem_append_right _ (List.mem_singleton.mpr rfl)
            · exact List.mem_append_left _ ((hsp x).mp h)
          · intro h
            rcases List.mem_append.mp h with h | h
            · exact List.mem_cons_of_mem _ ((hsp x).mpr h)
            · rw [List.mem_singleton.mp h]
              exact List.mem_cons_self _ _)
        simpa using h2

/-- Upserting `(n, a)` makes the first `(n, a)` lock carry `updatedAt = now`
and an incremented revision (1 when freshly inserted). -/
theorem lockLookup_upsert_self (st : List Lock) (n a : String) (now : Int) :
    lockLookup (upsertLock n a now st) n a
      = some ⟨n, a, now, ((lockLookup st n a).map Lock.v).getD 0 + 1⟩ := by
  induction st with
  | nil => simp [upsertLock, lockLookup]
  | cons l ls ih =>
    by_cases h : l.book = n ∧ l.account = a
    · obtain ⟨h1, h2⟩ := h
      rw [upsertLock, if_pos ⟨h1, h2⟩, lockLookup, if_pos ⟨h1, h2⟩,
        lockLookup, if_pos ⟨h1, h2⟩]
      simp [h1, h2]
    · rw [upsertLock, if_neg h, lockLookup, if_neg h, lockLookup, if_neg h]
      exact ih

/-- Upserting `(n, a)` leaves every lock with a different account key
unchanged. -/
theorem lockLookup_upsert_ne (st : List Lock) (n a a' : String) (now : Int)
    (h : a' ≠ a) :
    lockLookup (upsertLock n a now st) n a' = lockLookup st n a' := by
  induction st with
  | nil => simp [upsertLock, lockLookup, Ne.symm h]
  | cons l ls ih =>
    by_cases hm : l.book = n ∧ l.account = a
    · rw [upsertLock, if_pos hm, lockLookup, lockLookup]
      have : ¬({ l with updatedAt := now, v := l.v + 1 }.book = n ∧
          { l with updatedAt := now, v := l.v + 1 }.account = a') := by
        intro hc
        exact h (hc.2.symm.trans hm.2)
      rw [if_neg this, if_neg (fun hc => h ((hc.2).symm.trans hm.2))]
    · rw [upsertLock, if_neg hm, lockLookup, lockLookup]
      by_cases hl : l.book = n ∧ l.account = a'
      · rw [if_pos hl, if_pos hl]
      · rw [if_neg hl, if_neg hl]
        exact ih

/-- Folding upserts over accounts not containing `a` leaves the `(n, a)`
lock unchanged. -/
theorem lockLookup_fold_not_mem (l : List String) : ∀ (st : List Lock)
    (n a : String) (now : Int), a ∉ l →
    lockLookup (l.foldl (fun s x => upsertLock n x now s) st) n a
      = lockLookup st n a := by
  induction l with
  | nil => intro st n a now _; rfl
  | cons x xs ih =>
    intro st n a now h
    rw [List.foldl_cons, ih _ _ _ _ (fun hh => h (List.mem_cons_of_mem _ hh)),
      lockLookup_upsert_ne _ _ _ _ _
        (fun hh => h (by rw [hh]; exact List.mem_cons_self _ _))]

/-- Folding upserts over a duplicate-free account list upserts each member
exactly once. -/
theorem lockLookup_fold_mem (l : List String) : ∀ (st : List Lock)
    (n a : String) (now : Int), l.Nodup → a ∈ l →
    lockLookup (l.foldl (fun s x => upsertLock n x now s) st) n a
      = some ⟨n, a, now, ((lockLookup st n a).map Lock.v).getD 0 + 1⟩ := by
  induction l with
  | nil => intro st n a now _ h; cases h
  | cons x xs ih =>
    intro st n a now hnd hmem
    rw [List.foldl_cons]
    rcases List.mem_cons.mp hmem with rfl | hmem
    · rw [lockLookup_fold_not_mem xs _ _ _ _ (List.nodup_cons.mp hnd).1]
      exact lockLookup_upsert_self st n a now
    · have hax : a ≠ x := fun hh =>
        (List.nodup_cons.mp hnd).1 (hh ▸ hmem)
      rw [ih _ _ _ _ (List.nodup_cons.mp hnd).2 hmem,
        lockLookup_upsert_ne _ _ _ _ _ hax]

/-- **C9** (confirmed): `writelockAccounts` performs exactly one upsert per
distinct account — the upsert sequence is duplicate-free, contains exactly
the input accounts, and is ordered by first occurrence in the input — and
each upsert leaves the `(book, account)` lock with `updatedAt` refreshed to
now and its revision counter incremented by 1 (1 when freshly inserted). -/
theorem book_writelock_accounts (b : Book) (now : Int) (locks : List Lock)
    (accounts : List String) :
    (Book.writelockAccounts b now locks accounts).2.Nodup
    ∧ (∀ a, a ∈ (Book.writelockAccounts b now locks accounts).2 ↔ a ∈ accounts)
    ∧ List.Pairwise (fun x y => firstIdx accounts x < firstIdx accounts y)
        (Book.writelockAccounts b now locks accounts).2
    ∧ (∀ a ∈ accounts,
        lockLookup (Book.writelockAccounts b now locks accounts).1 b.name a
          = some ⟨b.name, a, now,
              ((lockLookup locks b.name a).map Lock.v).getD 0 + 1⟩) := by
  refine ⟨nodup_dedupGo accounts [], ?_, ?_, ?_⟩
  · intro a
    rw [Book.writelockAccounts]
    simp [dedupFirst, mem_dedupGo]
  · have h := pairwise_dedupGo accounts [] [] (fun x => by simp)
    simpa [Book.writelockAccounts, dedupFirst] using h
  · intro a ha
    rw [Book.writelockAccounts]
    exact lockLookup_fold_mem (dedupFirst accounts) locks b.name a now
      (nodup_dedupGo accounts [])
      ((mem_dedupGo accounts [] a).mpr ⟨ha, by simp⟩)

/-- **C7** (confirmed): `Book.void` throws `JournalNotFoundError` exactly
when no journal with the given identifier exists in this book, and
otherwise proceeds to void the journal it fetched, which belongs to this
book and has the requested identifier. -/
theorem book_void_journal_not_found (b : Book) (store : Store) (jid : String) :
    (Book.voidJournal b store jid = .error .journalNotFound ↔
      ∀ j ∈ store.journals, ¬(j.jId = jid ∧ j.book = b.name))
    ∧ (∀ j, Book.voidJournal b store jid = .ok j →
        j ∈ store.journals ∧ j.jId = jid ∧ j.book = b.name) := by
  unfold Book.voidJournal
  cases hf : store.journals.find? (fun j => j.jId == jid && j.book == b.name) with
  | none =>
    rw [List.find?_eq_none] at hf
    constructor
    · simp only [true_iff]
      intro j hj hc
      exact hf j hj (by simp [hc.1, hc.2])
    · intro j hj
      exact absurd hj (by simp)
  | some j =>
    have hp := List.find?_some hf
    have hm := List.mem_of_find?_eq_some hf
    simp only [Bool.and_eq_true, beq_iff_eq] at hp
    constructor
    · constructor
      · intro hc; exact absurd hc (by simp)
      · intro hall; exact absurd ⟨hp.1, hp.2⟩ (hall j hm)
    · intro j' hj'
      have : j = j' := by simpa using hj'
      exact this ▸ ⟨hm, hp.1, hp.2⟩

end Medici
